import Mathlib

/-!
# cavif: container assembly in `src/main.cpp`

A shallow embedding of the parts of `_main`, `printSequenceHeader` and
`endsWidh` that decide how the encoder output is turned into an AVIF file:

* the OBU classification loop (lines 172-196),
* the offset patch loop between the two writer passes (lines 197-205),
* the payload overlay `std::copy` (lines 206-209),
* the textual report of a decoded sequence header (lines 222-259),
* the file-name suffix test (lines 21-27).

Bytes are natural numbers, `std::vector` is `List`, C++ exceptions are the
`Except Exception` monad.
-/

namespace Cavif

/-- One `uint8_t` of a buffer. -/
abbrev Byte := Nat

/-- The C++ exceptions that the modelled code can raise. -/
inductive Exception where
  /-- Raised by `throw std::logic_error(what)`. -/
  | logic_error (what : String)
  /-- Raised by `std::get<T>` on a variant that holds another alternative. -/
  | bad_variant_access
  /-- Raised by `std::vector::at` and `std::string::substr`. -/
  | out_of_range
  deriving DecidableEq, Repr

deriving instance DecidableEq for Except

/-! ## Data model -/

/-- Modelled from the spec: `avif::av1::Header::Type` is declared outside
`main.cpp`. The five enumerators named by the switch in `_main` are kept by
name; every other OBU type is `Other code`. -/
inductive HeaderType where
  | Reserved
  | SequenceHeader
  | TemporalDelimiter
  | Frame
  | Padding
  | Other (code : Nat)
  deriving DecidableEq, Repr

/-- Modelled from the spec: the members of `SequenceHeader::OperatingPoint`
read by `printSequenceHeader`. -/
structure OperatingPoint where
  seqLevelIdx : Nat
  deriving DecidableEq, Repr

/-- Modelled from the spec: the members of `SequenceHeader::ColorConfig`
read by `printSequenceHeader`. -/
structure ColorConfig where
  highBitdepth : Bool
  twelveBit : Bool
  monochrome : Bool
  colorPrimaries : Option Nat
  transferCharacteristics : Option Nat
  matrixCoefficients : Option Nat
  colorRange : Bool
  subsamplingX : Nat
  subsamplingY : Nat
  chromaSamplePosition : Option Nat
  separateUVDeltaQ : Bool
  deriving DecidableEq, Repr

/-- Modelled from the spec: the members of `avif::av1::SequenceHeader` read
by `printSequenceHeader`. -/
structure SequenceHeader where
  seqProfile : Nat
  stillPicture : Bool
  reducedStillPictureHeader : Bool
  operatingPoints : List OperatingPoint
  maxFrameWidth : Nat
  maxFrameHeight : Nat
  use128x128Superblock : Bool
  enableFilterIntra : Bool
  enableIntraEdgeFilter : Bool
  enableSuperres : Bool
  enableCDEF : Bool
  enableRestoration : Bool
  filmGrainParamsPresent : Bool
  colorConfig : ColorConfig
  deriving DecidableEq, Repr

/-- Modelled from the spec: `avif::av1::Parser::Result::Packet`, one OBU
record. `content` is the variant returned by `packet.content()`; it is
`some s` exactly when the variant holds a decoded `SequenceHeader`. -/
structure Packet where
  type : HeaderType
  beg : Nat
  end_ : Nat
  content : Option SequenceHeader
  deriving DecidableEq, Repr

/-- The iterator range `[std::next(begin, b), std::next(begin, e))` of a
buffer, as the list of bytes it denotes. The C++ range is defined for
`b <= e <= size`; the model clips other ranges to the buffer. -/
def byteRange (buffer : List Byte) (b e : Nat) : List Byte :=
  (buffer.take e).drop b

/-- The bytes of a packet inside the parsed buffer. -/
def Packet.bytes (buffer : List Byte) (packet : Packet) : List Byte :=
  byteRange buffer packet.beg packet.end_

/-- The three locals of `_main` that the classification loop updates. -/
structure LoopState where
  seq : Option SequenceHeader
  configOBUs : List Byte
  mdat : List Byte
  deriving DecidableEq, Repr

/-- The locals as declared on lines 172-174. -/
def LoopState.init : LoopState :=
  { seq := none, configOBUs := [], mdat := [] }

/-- The argument of `AVIFBuilder::Frame(seq.value(), configOBUs, mdat)`. -/
structure Frame where
  sequenceHeader : SequenceHeader
  configOBUs : List Byte
  mdat : List Byte
  deriving DecidableEq, Repr

/-! ## The classification loop (lines 175-192) -/

/-- One iteration of the `for` loop: the `switch` on `packet.type()`. -/
def classifyStep (buffer : List Byte) (st : LoopState) (packet : Packet) :
    Except Exception LoopState :=
  match packet.type with
  | HeaderType.TemporalDelimiter => Except.ok st
  | HeaderType.Padding => Except.ok st
  | HeaderType.Reserved => Except.ok st
  | HeaderType.SequenceHeader =>
    match packet.content with
    | none => Except.error Exception.bad_variant_access
    | some s =>
      Except.ok
        { seq := some s
          configOBUs := st.configOBUs ++ byteRange buffer packet.beg packet.end_
          mdat := st.mdat ++ byteRange buffer packet.beg packet.end_ }
  | HeaderType.Frame =>
    Except.ok { st with mdat := st.mdat ++ byteRange buffer packet.beg packet.end_ }
  | HeaderType.Other _ =>
    Except.ok { st with mdat := st.mdat ++ byteRange buffer packet.beg packet.end_ }

/-- The `for` loop over `result->packets()`. -/
def classifyLoop (buffer : List Byte) : LoopState → List Packet → Except Exception LoopState
  | st, [] => Except.ok st
  | st, packet :: rest =>
    match classifyStep buffer st packet with
    | Except.error e => Except.error e
    | Except.ok st' => classifyLoop buffer st' rest

/-- Lines 172-196: run the loop from the initial locals, then the
`seq.has_value()` check, then build the argument of `setPrimaryFrame`. -/
def assembleFrame (buffer : List Byte) (packets : List Packet) : Except Exception Frame :=
  match classifyLoop buffer LoopState.init packets with
  | Except.error e => Except.error e
  | Except.ok st =>
    match st.seq with
    | none => Except.error (Exception.logic_error "No sequence header OBU.")
    | some s => Except.ok { sequenceHeader := s, configOBUs := st.configOBUs, mdat := st.mdat }

/-! ## Vocabulary for the statements -/

/-- The types whose case is a bare `break`. -/
def HeaderType.isDropped : HeaderType → Bool
  | HeaderType.TemporalDelimiter => true
  | HeaderType.Padding => true
  | HeaderType.Reserved => true
  | _ => false

/-- The type test for sequence header records. -/
def HeaderType.isSequenceHeader : HeaderType → Bool
  | HeaderType.SequenceHeader => true
  | _ => false

/-- The parser's invariant on records: a record of type `SequenceHeader`
carries its decoded content. -/
def Parsed (packets : List Packet) : Prop :=
  ∀ p ∈ packets, p.type = HeaderType.SequenceHeader → p.content.isSome = true

instance (packets : List Packet) : Decidable (Parsed packets) := by
  unfold Parsed; infer_instance

/-- A record whose bytes the loop does not drop. -/
def isKept (p : Packet) : Bool := !p.type.isDropped

/-- A record of type `SequenceHeader`. -/
def isSeqHdr (p : Packet) : Bool := p.type.isSequenceHeader

/-- A record that is neither dropped nor a sequence header (frame data). -/
def isFrameData (p : Packet) : Bool := !p.type.isDropped && !p.type.isSequenceHeader

/-- A decoded sequence header used in examples: profile 0, 64x64, 4:2:0. -/
def sampleSequenceHeader : SequenceHeader :=
  { seqProfile := 0, stillPicture := true, reducedStillPictureHeader := true
    operatingPoints := [{ seqLevelIdx := 0 }]
    maxFrameWidth := 64, maxFrameHeight := 64
    use128x128Superblock := false, enableFilterIntra := false
    enableIntraEdgeFilter := false, enableSuperres := false, enableCDEF := false
    enableRestoration := false, filmGrainParamsPresent := false
    colorConfig :=
      { highBitdepth := false, twelveBit := false, monochrome := false
        colorPrimaries := none, transferCharacteristics := none
        matrixCoefficients := none, colorRange := false
        subsamplingX := 1, subsamplingY := 1
        chromaSamplePosition := none, separateUVDeltaQ := false } }

/-- A decoded sequence header of a 4:2:2 stream: `subsamplingX = 1`,
`subsamplingY = 0`. -/
def sequenceHeader422 : SequenceHeader :=
  { sampleSequenceHeader with
    seqProfile := 2
    colorConfig := { sampleSequenceHeader.colorConfig with subsamplingX := 1, subsamplingY := 0 } }

/-- Concatenation, in record order, of the byte ranges of the records that
satisfy `keep`. -/
def concatBytes (buffer : List Byte) (keep : Packet → Bool) (packets : List Packet) :
    List Byte :=
  ((packets.filter keep).map (Packet.bytes buffer)).flatten

/-! ## The box tree and the offset patch (lines 197-205) -/

/-- Modelled from the spec: a box of the tree that `_main` never touches
(file-type, handler, primary-item, item-info, item-properties). It is kept
as its four-character type and its already laid out fields and children. -/
structure OpaqueBox where
  type : List Byte
  payload : List Byte
  deriving DecidableEq, Repr

/-- Modelled from the spec: one entry of `ItemLocationBox::items`. Only
`baseOffset` is named by `main.cpp`; the glossary gives an entry the offset
and the length of the item's payload, and the items are numbered. -/
structure Item where
  itemID : Nat
  baseOffset : Nat
  length : Nat
  deriving DecidableEq, Repr

/-- Modelled from the spec: `avif::ItemLocationBox`. -/
structure ItemLocationBox where
  items : List Item
  deriving DecidableEq, Repr

/-- Modelled from the spec: `avif::MetaBox` with the children the spec
lists, in the order it lists them. -/
structure MetaBox where
  handlerBox : OpaqueBox
  primaryItemBox : OpaqueBox
  itemInfoBox : OpaqueBox
  itemLocationBox : ItemLocationBox
  itemPropertiesBox : OpaqueBox
  deriving DecidableEq, Repr

/-- Modelled from the spec: `avif::MediaDataBox`, an owned byte buffer and
the mutable `offset` that the writer fills in. -/
structure MediaDataBox where
  offset : Nat
  data : List Byte
  deriving DecidableEq, Repr

/-- Modelled from the spec: `avif::FileBox`. -/
structure FileBox where
  fileTypeBox : OpaqueBox
  metaBox : MetaBox
  mediaDataBoxes : List MediaDataBox
  deriving DecidableEq, Repr

/-- The call `v.at(i)` of `std::vector`. -/
def vectorAt {α : Type} (v : List α) (i : Nat) : Except Exception α :=
  match v.get? i with
  | some x => Except.ok x
  | none => Except.error Exception.out_of_range

/-- The assignment `fileBox.metaBox.itemLocationBox.items.at(i).baseOffset = offset`
for an index inside the vector. -/
def FileBox.setBaseOffset (fileBox : FileBox) (i : Nat) (offset : Nat) : FileBox :=
  { fileBox with
    metaBox :=
      { fileBox.metaBox with
        itemLocationBox :=
          { items := fileBox.metaBox.itemLocationBox.items.modify
              (fun item => { item with baseOffset := offset }) i } } }

/-- Lines 202-205: the `for` loop from index `i` on. -/
def patchLoop (fileBox : FileBox) (i : Nat) : Except Exception FileBox :=
  if i < fileBox.metaBox.itemLocationBox.items.length then
    match vectorAt fileBox.mediaDataBoxes i with
    | Except.error e => Except.error e
    | Except.ok box => patchLoop (fileBox.setBaseOffset i box.offset) (i + 1)
  else
    Except.ok fileBox
termination_by fileBox.metaBox.itemLocationBox.items.length - i
decreasing_by
  simp only [FileBox.setBaseOffset, List.length_modify]
  omega

/-- The effect of one iteration of the patch loop on an entry: its
`baseOffset` becomes the `offset` of the media-data box of the same index. -/
def patchItem (item : Item) (box : MediaDataBox) : Item :=
  { item with baseOffset := box.offset }

/-- The box tree with its item-location entries replaced. -/
def FileBox.withItems (fileBox : FileBox) (items : List Item) : FileBox :=
  { fileBox with
    metaBox := { fileBox.metaBox with itemLocationBox := { items := items } } }

/-- A box tree as the builder makes it, used in examples: one entry with
the placeholder `baseOffset` 0 and one media-data box of four bytes whose
`offset` field holds 312. -/
def sampleFileBox : FileBox :=
  { fileTypeBox := ⟨[0x66, 0x74, 0x79, 0x70], [0x61, 0x76, 0x69, 0x66]⟩
    metaBox :=
      { handlerBox := ⟨[0x68, 0x64, 0x6c, 0x72], [0, 0]⟩
        primaryItemBox := ⟨[0x70, 0x69, 0x74, 0x6d], [0, 1]⟩
        itemInfoBox := ⟨[0x69, 0x69, 0x6e, 0x66], []⟩
        itemLocationBox := { items := [⟨1, 0, 4⟩] }
        itemPropertiesBox := ⟨[0x69, 0x70, 0x72, 0x70], [1]⟩ }
    mediaDataBoxes := [⟨312, [7, 7, 7, 7]⟩] }

/-! ## The box writer -/

/-- Big-endian encoding of `v` in a field of `width` bytes. -/
def beBytes : Nat → Nat → List Byte
  | 0, _ => []
  | width + 1, v => beBytes width (v / 256) ++ [v % 256]

/-- Modelled from the spec: a box header, the 32-bit size of the whole box
followed by its type. -/
def boxHeader (type : List Byte) (payloadSize : Nat) : List Byte :=
  beBytes 4 (4 + type.length + payloadSize) ++ type

/-- Modelled from the spec: serialization of a box that holds no offset. -/
def writeBox (box : OpaqueBox) : List Byte :=
  boxHeader box.type box.payload.length ++ box.payload

/-- Modelled from the spec: one item-location entry; `baseOffset` is a
fixed-width integer field of `width` bytes, between a two-byte item id and
a four-byte length. -/
def writeItem (width : Nat) (item : Item) : List Byte :=
  beBytes 2 item.itemID ++ (beBytes width item.baseOffset ++ beBytes 4 item.length)

/-- The four-character code of the item-location box. -/
def ilocType : List Byte := [0x69, 0x6c, 0x6f, 0x63]

/-- The four-character code of the meta box. -/
def metaType : List Byte := [0x6d, 0x65, 0x74, 0x61]

/-- The four-character code of the media-data box. -/
def mdatType : List Byte := [0x6d, 0x64, 0x61, 0x74]

/-- Modelled from the spec: the entries of the item-location box. -/
def writeItems (width : Nat) (items : List Item) : List Byte :=
  (items.map (writeItem width)).flatten

/-- Modelled from the spec: the item-location box, an entry count followed
by the entries. -/
def writeItemLocationBox (width : Nat) (box : ItemLocationBox) : List Byte :=
  boxHeader ilocType (2 + (writeItems width box.items).length)
    ++ (beBytes 2 box.items.length ++ writeItems width box.items)

/-- The bytes of the meta box's children that precede the item-location
entries. -/
def metaLead (box : MetaBox) : List Byte :=
  writeBox box.handlerBox ++ (writeBox box.primaryItemBox ++ writeBox box.itemInfoBox)

/-- Modelled from the spec: the meta box; its size is computed bottom-up
from the serialized sizes of its children. -/
def writeMetaBox (width : Nat) (box : MetaBox) : List Byte :=
  boxHeader metaType
      ((metaLead box).length + (writeItemLocationBox width box.itemLocationBox).length
        + (writeBox box.itemPropertiesBox).length)
    ++ (metaLead box ++ (writeItemLocationBox width box.itemLocationBox
        ++ writeBox box.itemPropertiesBox))

/-- Modelled from the spec: the media-data boxes, written from stream
position `pos`. Each box is a header followed by a placeholder region as
long as its buffer; the position after the header is stored in `offset`. -/
def writeMediaDataBoxes (pos : Nat) : List MediaDataBox → List Byte × List MediaDataBox
  | [] => ([], [])
  | box :: rest =>
    let header := boxHeader mdatType box.data.length
    let offset := pos + header.length
    let tail := writeMediaDataBoxes (offset + box.data.length) rest
    (header ++ (List.replicate box.data.length 0 ++ tail.1),
      { box with offset := offset } :: tail.2)

/-- Modelled from the spec: `avif::Writer::write`, which `main.cpp` calls
but does not define. It returns the stream's buffer and the box tree with
the media-data offsets it recorded. -/
def Writer.write (width : Nat) (fileBox : FileBox) : List Byte × FileBox :=
  let head := writeBox fileBox.fileTypeBox ++ writeMetaBox width fileBox.metaBox
  let tail := writeMediaDataBoxes head.length fileBox.mediaDataBoxes
  (head ++ tail.1, { fileBox with mediaDataBoxes := tail.2 })

/-- The part of the output of `Writer.write` that precedes the
item-location entries. -/
def writeLead (width : Nat) (fileBox : FileBox) : List Byte :=
  writeBox fileBox.fileTypeBox
    ++ (boxHeader metaType
          ((metaLead fileBox.metaBox).length
            + (writeItemLocationBox width fileBox.metaBox.itemLocationBox).length
            + (writeBox fileBox.metaBox.itemPropertiesBox).length)
        ++ metaLead fileBox.metaBox
        ++ boxHeader ilocType
            (2 + (writeItems width fileBox.metaBox.itemLocationBox.items).length)
        ++ beBytes 2 fileBox.metaBox.itemLocationBox.items.length)

/-- The part of the output of `Writer.write` that follows the
item-location entries. -/
def writeTrail (width : Nat) (fileBox : FileBox) : List Byte :=
  writeBox fileBox.metaBox.itemPropertiesBox
    ++ (writeMediaDataBoxes
          (writeBox fileBox.fileTypeBox ++ writeMetaBox width fileBox.metaBox).length
          fileBox.mediaDataBoxes).1

/-- Stream position of the `baseOffset` field of item-location entry `i`
in the output of `Writer.write`. -/
def baseOffsetPos (width : Nat) (fileBox : FileBox) (i : Nat) : Nat :=
  (writeBox fileBox.fileTypeBox).length + (boxHeader metaType 0).length
    + (metaLead fileBox.metaBox).length + (boxHeader ilocType 0).length + 2
    + i * (2 + width + 4) + 2

/-! ## Output assembly (lines 197-209) -/

/-- The call `std::copy(first, last, d)` with `d = std::next(begin(dst), pos)`:
element by element, `*d++ = *first++`. The C++ call is defined when the
destination has room; the model skips a write past the end. -/
def stdCopy : List Byte → List Byte → Nat → List Byte
  | [], dst, _ => dst
  | b :: rest, dst, pos => stdCopy rest (dst.set pos b) (pos + 1)

/-- Lines 197-209, over the writer `write`: discovery pass, patch loop,
final pass, payload overlay. Returns `data` and the final box tree. -/
def writeOutput (write : FileBox → List Byte × FileBox) (fileBox : FileBox)
    (mdat : List Byte) : Except Exception (List Byte × FileBox) :=
  match patchLoop (write fileBox).2 0 with
  | Except.error e => Except.error e
  | Except.ok patched =>
    match vectorAt (write patched).2.mediaDataBoxes 0 with
    | Except.error e => Except.error e
    | Except.ok box => Except.ok (stdCopy mdat (write patched).1 box.offset, (write patched).2)

/-! ## `printSequenceHeader` (lines 222-259) -/

/-- The argument `flag ? "Yes" : "No"`. -/
def yesNo (flag : Bool) : String :=
  if flag then "Yes" else "No"

/-- The argument `v.has_value() ? std::to_string(static_cast<uint8_t>(v.value())) : "<Unknownn>"`. -/
def valueOrUnknown (v : Option Nat) : String :=
  match v with
  | some x => toString (x % 256)
  | none => "<Unknownn>"

/-- The lines handed to `log.info`, in order, when the function returns;
`operatingPoints.at(0)` raises `out_of_range` on an empty vector. -/
def printSequenceHeader (seq : SequenceHeader) : Except Exception (List String) :=
  match vectorAt seq.operatingPoints 0 with
  | Except.error e => Except.error e
  | Except.ok op =>
    Except.ok
      [ "<Encoding Result>"
      , " - OBU Sequence Header:"
      , "   - AV1 Profile: " ++ toString seq.seqProfile
      , "   - Still picture: " ++ yesNo seq.stillPicture
      , "   - Reduced still picture header: " ++ yesNo seq.reducedStillPictureHeader
      , "   - Sequence Level Index at OperatingPoint[0]: " ++ toString op.seqLevelIdx
      , "   - Max frame width: " ++ toString seq.maxFrameWidth
      , "   - Max frame height: " ++ toString seq.maxFrameHeight
      , "   - Use 128x128 superblock: " ++ yesNo seq.use128x128Superblock
      , "   - FilterIntra enabled: " ++ yesNo seq.enableFilterIntra
      , "   - IntraEdgeFilter enabled: " ++ yesNo seq.enableIntraEdgeFilter
      , "   - Superres enabled: " ++ yesNo seq.enableSuperres
      , "   - CDEF enabled: " ++ yesNo seq.enableCDEF
      , "   - Loop Restoration enabled: " ++ yesNo seq.enableRestoration
      , "   - Film Grain Params Present: " ++ yesNo seq.filmGrainParamsPresent
      , "   - Color Info:"
      , "     - High bit-depth: " ++ yesNo seq.colorConfig.highBitdepth
      , "     - Twelve bit: " ++ yesNo seq.colorConfig.twelveBit
      , "     - Monochrome: " ++ yesNo seq.colorConfig.monochrome
      , "     - Color primaries: " ++ valueOrUnknown seq.colorConfig.colorPrimaries
      , "     - Transfer characteristics: "
          ++ valueOrUnknown seq.colorConfig.transferCharacteristics
      , "     - Matrix coefficients: " ++ valueOrUnknown seq.colorConfig.matrixCoefficients
      , "     - Color range: " ++ (if seq.colorConfig.colorRange then "Full Ranged" else "Limited")
      , "     - Sub sampling X: " ++ toString seq.colorConfig.subsamplingX
      , "     - Sub sampling Y: " ++ toString seq.colorConfig.subsamplingX
      , "     - Chroma sample position: "
          ++ valueOrUnknown seq.colorConfig.chromaSamplePosition
      , "     - Separate UV Delta Q: " ++ yesNo seq.colorConfig.separateUVDeltaQ ]

/-! ## `endsWidh` (lines 21-27) -/

/-- The call `s.substr(pos)` of `std::string`: `out_of_range` when
`pos > s.size()`. -/
def substr (s : List Char) (pos : Nat) : Except Exception (List Char) :=
  if s.length < pos then Except.error Exception.out_of_range else Except.ok (s.drop pos)

/-- Lines 22-27. The `size_t` subtraction is reached only when
`suffix.size() <= target.size()`, where it does not wrap. -/
def endsWidh (target suffix : List Char) : Except Exception Bool :=
  if target.length < suffix.length then
    Except.ok false
  else
    match substr target (target.length - suffix.length) with
    | Except.error e => Except.error e
    | Except.ok tail => Except.ok (decide (tail = suffix))

/-! ## Facts about the classification loop -/

theorem concatBytes_nil (buffer : List Byte) (keep : Packet → Bool) :
    concatBytes buffer keep [] = [] := rfl

theorem concatBytes_cons (buffer : List Byte) (keep : Packet → Bool) (p : Packet)
    (ps : List Packet) :
    concatBytes buffer keep (p :: ps)
      = (if keep p then Packet.bytes buffer p else []) ++ concatBytes buffer keep ps := by
  unfold concatBytes
  by_cases h : keep p = true <;> simp [List.filter_cons, h]

theorem Parsed.tail {p : Packet} {ps : List Packet} (h : Parsed (p :: ps)) : Parsed ps :=
  fun q hq => h q (List.mem_cons_of_mem p hq)

/-- The sequence header the loop ends with: the content of the last
sequence header record, or the initial value when there is none. -/
theorem classifyLoop_ok (buffer : List Byte) (packets : List Packet) (hp : Parsed packets)
    (st : LoopState) :
    classifyLoop buffer st packets = Except.ok
      { seq := ((packets.filter isSeqHdr).getLast?.bind Packet.content).or st.seq
        configOBUs := st.configOBUs ++ concatBytes buffer isSeqHdr packets
        mdat := st.mdat ++ concatBytes buffer isKept packets } := by
  induction packets generalizing st with
  | nil => simp [classifyLoop, concatBytes_nil]
  | cons p ps ih =>
    have hps := hp.tail
    have hhead := hp p (List.mem_cons_self p ps)
    rw [concatBytes_cons, concatBytes_cons]
    cases hty : p.type with
    | SequenceHeader =>
      obtain ⟨s, hs⟩ := Option.isSome_iff_exists.mp (hhead hty)
      have hk : isSeqHdr p = true := by simp [isSeqHdr, hty, HeaderType.isSequenceHeader]
      simp only [classifyLoop, classifyStep, hty, hs, ih hps, List.filter_cons, hk, if_true,
        isKept, HeaderType.isDropped, Bool.not_false, Packet.bytes, List.append_assoc]
      congr 2
      rw [List.getLast?_cons]
      cases hl : (List.filter isSeqHdr ps).getLast? with
      | none => simp [hs]
      | some q =>
        have hq : q ∈ List.filter isSeqHdr ps := List.mem_of_getLast?_eq_some hl
        have hq2 := List.mem_filter.mp hq
        have hqt : q.type = HeaderType.SequenceHeader := by
          have := hq2.2
          simp only [isSeqHdr] at this
          cases hqt : q.type <;> simp_all [HeaderType.isSequenceHeader]
        obtain ⟨s2, hs2⟩ := Option.isSome_iff_exists.mp (hps q hq2.1 hqt)
        simp [hs2]
    | TemporalDelimiter =>
      simp [classifyLoop, classifyStep, hty, ih hps, List.filter_cons, isSeqHdr, isKept,
        HeaderType.isSequenceHeader, HeaderType.isDropped]
    | Padding =>
      simp [classifyLoop, classifyStep, hty, ih hps, List.filter_cons, isSeqHdr, isKept,
        HeaderType.isSequenceHeader, HeaderType.isDropped]
    | Reserved =>
      simp [classifyLoop, classifyStep, hty, ih hps, List.filter_cons, isSeqHdr, isKept,
        HeaderType.isSequenceHeader, HeaderType.isDropped]
    | Frame =>
      simp [classifyLoop, classifyStep, hty, ih hps, List.filter_cons, isSeqHdr, isKept,
        HeaderType.isSequenceHeader, HeaderType.isDropped, Packet.bytes]
    | Other c =>
      simp [classifyLoop, classifyStep, hty, ih hps, List.filter_cons, isSeqHdr, isKept,
        HeaderType.isSequenceHeader, HeaderType.isDropped, Packet.bytes]

theorem isSeqHdr_iff (p : Packet) : isSeqHdr p = true ↔ p.type = HeaderType.SequenceHeader := by
  unfold isSeqHdr
  cases p.type <;> simp [HeaderType.isSequenceHeader]

/-- Without the parser's invariant the loop can only fail in `std::get`. -/
theorem classifyLoop_error (buffer : List Byte) (packets : List Packet) (st : LoopState)
    (e : Exception) (h : classifyLoop buffer st packets = Except.error e) :
    e = Exception.bad_variant_access := by
  induction packets generalizing st with
  | nil => simp [classifyLoop] at h
  | cons p ps ih =>
    unfold classifyLoop at h
    cases hstep : classifyStep buffer st p with
    | error e2 =>
      rw [hstep] at h
      simp only [Except.error.injEq] at h
      subst h
      unfold classifyStep at hstep
      cases hty : p.type <;> rw [hty] at hstep <;> simp at hstep
      cases hc : p.content <;> rw [hc] at hstep <;> simp at hstep
      exact hstep.symm
    | ok st2 =>
      rw [hstep] at h
      exact ih st2 h

/-- The loop ends with an empty `seq` exactly when it started with one and
met no sequence header record. -/
theorem classifyLoop_seq_none (buffer : List Byte) (packets : List Packet) (st : LoopState) :
    (∃ st2, classifyLoop buffer st packets = Except.ok st2 ∧ st2.seq = none)
      ↔ (st.seq = none ∧ ∀ p ∈ packets, p.type ≠ HeaderType.SequenceHeader) := by
  induction packets generalizing st with
  | nil => simp [classifyLoop]
  | cons p ps ih =>
    unfold classifyLoop
    cases hty : p.type with
    | SequenceHeader =>
      cases hc : p.content with
      | none => simp [classifyStep, hty, hc]
      | some s =>
        simp only [classifyStep, hty, hc, ih]
        simp [hty]
    | TemporalDelimiter => simp [classifyStep, hty, ih]
    | Padding => simp [classifyStep, hty, ih]
    | Reserved => simp [classifyStep, hty, ih]
    | Frame => simp [classifyStep, hty, ih]
    | Other c => simp [classifyStep, hty, ih]

/-- C1. Under the parser's invariant the classification loop ends normally
with `configOBUs` the concatenation, in record order, of the byte ranges of
exactly the `SequenceHeader` records, and `mdat` the concatenation, in
record order, of the byte ranges of exactly the records whose type is not
`TemporalDelimiter`, `Padding` or `Reserved`. -/
theorem classification_buffers (buffer : List Byte) (packets : List Packet)
    (hp : Parsed packets) :
    ∃ seq, classifyLoop buffer LoopState.init packets = Except.ok
      { seq := seq
        configOBUs := ((packets.filter
          (fun p => decide (p.type = HeaderType.SequenceHeader))).map
            (fun p => byteRange buffer p.beg p.end_)).flatten
        mdat := ((packets.filter
          (fun p => decide (p.type ≠ HeaderType.TemporalDelimiter
            ∧ p.type ≠ HeaderType.Padding ∧ p.type ≠ HeaderType.Reserved))).map
            (fun p => byteRange buffer p.beg p.end_)).flatten } := by
  refine ⟨((packets.filter isSeqHdr).getLast?.bind Packet.content).or none, ?_⟩
  rw [classifyLoop_ok buffer packets hp]
  have h1 : (fun p : Packet => decide (p.type = HeaderType.SequenceHeader)) = isSeqHdr := by
    funext p
    unfold isSeqHdr
    cases p.type <;> simp [HeaderType.isSequenceHeader]
  have h2 : (fun p : Packet => decide (p.type ≠ HeaderType.TemporalDelimiter
      ∧ p.type ≠ HeaderType.Padding ∧ p.type ≠ HeaderType.Reserved)) = isKept := by
    funext p
    unfold isKept
    cases p.type <;> simp [HeaderType.isDropped]
  rw [h1, h2]
  simp only [LoopState.init, List.nil_append, concatBytes]
  rfl

/-- C1 at a concrete stream: temporal delimiter, sequence header, frame,
padding over a six-byte buffer. -/
theorem classification_buffers_witness :
    Parsed
        [ ⟨HeaderType.TemporalDelimiter, 0, 1, none⟩
        , ⟨HeaderType.SequenceHeader, 1, 3, some sampleSequenceHeader⟩
        , ⟨HeaderType.Frame, 3, 5, none⟩
        , ⟨HeaderType.Padding, 5, 6, none⟩ ]
      ∧ ∃ seq, classifyLoop [10, 11, 12, 13, 14, 15] LoopState.init
        [ ⟨HeaderType.TemporalDelimiter, 0, 1, none⟩
        , ⟨HeaderType.SequenceHeader, 1, 3, some sampleSequenceHeader⟩
        , ⟨HeaderType.Frame, 3, 5, none⟩
        , ⟨HeaderType.Padding, 5, 6, none⟩ ]
        = Except.ok { seq := seq, configOBUs := [11, 12], mdat := [11, 12, 13, 14] } :=
  ⟨by decide, classification_buffers [10, 11, 12, 13, 14, 15] _ (by decide)⟩

theorem exists_seqHdr_filter_ne_nil (packets : List Packet)
    (hs : ∃ p ∈ packets, p.type = HeaderType.SequenceHeader) :
    packets.filter isSeqHdr ≠ [] := by
  obtain ⟨p, hp, hty⟩ := hs
  intro h
  have : p ∈ packets.filter isSeqHdr := List.mem_filter.mpr ⟨hp, (isSeqHdr_iff p).mpr hty⟩
  rw [h] at this
  simp at this

theorem lastSeqHdr_content (packets : List Packet) (hp : Parsed packets)
    (hs : ∃ p ∈ packets, p.type = HeaderType.SequenceHeader) :
    ∃ s, (packets.filter isSeqHdr).getLast?.bind Packet.content = some s := by
  have hne := exists_seqHdr_filter_ne_nil packets hs
  cases hl : (packets.filter isSeqHdr).getLast? with
  | none => exact absurd (List.getLast?_eq_none_iff.mp hl) hne
  | some q =>
    have hq := List.mem_filter.mp (List.mem_of_getLast?_eq_some hl)
    obtain ⟨s, hs2⟩ := Option.isSome_iff_exists.mp (hp q hq.1 ((isSeqHdr_iff q).mp hq.2))
    exact ⟨s, by simp [hs2]⟩

/-- C2. Assembly fails with `std::logic_error("No sequence header OBU.")`
exactly when no record has type `SequenceHeader`; the stream
[TemporalDelimiter, Frame] fails so; and a parsed stream with exactly one
`SequenceHeader` record passes the check and yields the builder's frame. -/
theorem no_sequence_header_iff (buffer : List Byte) (packets : List Packet) :
    (assembleFrame buffer packets
        = Except.error (Exception.logic_error "No sequence header OBU.")
      ↔ ∀ p ∈ packets, p.type ≠ HeaderType.SequenceHeader)
    ∧ (∀ td fr : Packet, td.type = HeaderType.TemporalDelimiter → fr.type = HeaderType.Frame →
        assembleFrame buffer [td, fr]
          = Except.error (Exception.logic_error "No sequence header OBU."))
    ∧ (Parsed packets →
        (packets.filter (fun p => decide (p.type = HeaderType.SequenceHeader))).length = 1 →
        ∃ frame, assembleFrame buffer packets = Except.ok frame) := by
  have key : ∀ ps : List Packet,
      (assembleFrame buffer ps
          = Except.error (Exception.logic_error "No sequence header OBU.")
        ↔ ∀ p ∈ ps, p.type ≠ HeaderType.SequenceHeader) := by
    intro ps
    have hnone := classifyLoop_seq_none buffer ps LoopState.init
    unfold assembleFrame
    cases hloop : classifyLoop buffer LoopState.init ps with
    | error e =>
      have he := classifyLoop_error buffer ps LoopState.init e hloop
      subst he
      rw [hloop] at hnone
      simp only [Except.error.injEq]
      constructor
      · intro h
        cases h
      · intro h
        have := hnone.mpr ⟨rfl, h⟩
        simp at this
    | ok st =>
      rw [hloop] at hnone
      cases hseq : st.seq with
      | none =>
        simp only [hseq, true_iff]
        exact (hnone.mp ⟨st, rfl, hseq⟩).2
      | some s =>
        simp only [hseq, false_iff, reduceCtorEq]
        intro h
        obtain ⟨st2, h2, h3⟩ := hnone.mpr ⟨rfl, h⟩
        simp only [Except.ok.injEq] at h2
        subst h2
        rw [hseq] at h3
        cases h3
  refine ⟨key packets, ?_, ?_⟩
  · intro td fr htd hfr
    apply (key [td, fr]).mpr
    intro p hp
    simp only [List.mem_cons, List.mem_singleton, List.not_mem_nil, or_false] at hp
    rcases hp with rfl | rfl
    · rw [htd]; simp
    · rw [hfr]; simp
  · intro hp hone
    have hex : ∃ p ∈ packets, p.type = HeaderType.SequenceHeader := by
      cases hf : packets.filter (fun p => decide (p.type = HeaderType.SequenceHeader)) with
      | nil => rw [hf] at hone; simp at hone
      | cons q qs =>
        have hq : q ∈ packets.filter (fun p => decide (p.type = HeaderType.SequenceHeader)) := by
          rw [hf]; exact List.mem_cons_self q qs
        have := List.mem_filter.mp hq
        exact ⟨q, this.1, by simpa using this.2⟩
    obtain ⟨s, hs⟩ := lastSeqHdr_content packets hp hex
    unfold assembleFrame
    rw [classifyLoop_ok buffer packets hp, hs]
    exact ⟨_, rfl⟩

/-- C2 at concrete streams: Scenario B fails, a stream with one sequence
header record reaches the builder. -/
theorem no_sequence_header_iff_witness :
    assembleFrame [1, 2, 3]
        [⟨HeaderType.TemporalDelimiter, 0, 1, none⟩, ⟨HeaderType.Frame, 1, 3, none⟩]
      = Except.error (Exception.logic_error "No sequence header OBU.")
    ∧ ∃ frame, assembleFrame [1, 2, 3]
        [⟨HeaderType.SequenceHeader, 0, 1, some sampleSequenceHeader⟩,
          ⟨HeaderType.Frame, 1, 3, none⟩] = Except.ok frame :=
  ⟨(no_sequence_header_iff [1, 2, 3]
      [⟨HeaderType.TemporalDelimiter, 0, 1, none⟩, ⟨HeaderType.Frame, 1, 3, none⟩]).2.1
      _ _ rfl rfl,
   (no_sequence_header_iff [1, 2, 3]
      [⟨HeaderType.SequenceHeader, 0, 1, some sampleSequenceHeader⟩,
        ⟨HeaderType.Frame, 1, 3, none⟩]).2.2 (by decide) (by decide)⟩

theorem concatBytes_false (buffer : List Byte) (f : Packet → Bool) (packets : List Packet)
    (h : ∀ p ∈ packets, f p = false) : concatBytes buffer f packets = [] := by
  unfold concatBytes
  rw [List.filter_eq_nil_iff.mpr (fun p hp => by simp [h p hp])]
  rfl

/-- When every sequence header record precedes every frame-data record,
the kept bytes are the sequence header bytes followed by the frame bytes. -/
theorem concatBytes_kept_split (buffer : List Byte) (packets : List Packet)
    (ho : packets.Pairwise (fun a b => isSeqHdr b = true → isFrameData a = false)) :
    concatBytes buffer isKept packets
      = concatBytes buffer isSeqHdr packets ++ concatBytes buffer isFrameData packets := by
  induction packets with
  | nil => rfl
  | cons p ps ih =>
    rw [List.pairwise_cons] at ho
    rw [concatBytes_cons, concatBytes_cons, concatBytes_cons, ih ho.2]
    cases hty : p.type with
    | SequenceHeader =>
      simp [isKept, isSeqHdr, isFrameData, hty, HeaderType.isDropped,
        HeaderType.isSequenceHeader]
    | TemporalDelimiter =>
      simp [isKept, isSeqHdr, isFrameData, hty, HeaderType.isDropped,
        HeaderType.isSequenceHeader]
    | Padding =>
      simp [isKept, isSeqHdr, isFrameData, hty, HeaderType.isDropped,
        HeaderType.isSequenceHeader]
    | Reserved =>
      simp [isKept, isSeqHdr, isFrameData, hty, HeaderType.isDropped,
        HeaderType.isSequenceHeader]
    | Frame =>
      have hfd : isFrameData p = true := by
        simp [isFrameData, hty, HeaderType.isDropped, HeaderType.isSequenceHeader]
      have hno : ∀ q ∈ ps, isSeqHdr q = false := by
        intro q hq
        cases hsq : isSeqHdr q with
        | false => rfl
        | true => have := ho.1 q hq hsq; rw [hfd] at this; cases this
      rw [concatBytes_false buffer isSeqHdr ps hno]
      simp [isKept, isSeqHdr, isFrameData, hty, HeaderType.isDropped,
        HeaderType.isSequenceHeader]
    | Other c =>
      have hfd : isFrameData p = true := by
        simp [isFrameData, hty, HeaderType.isDropped, HeaderType.isSequenceHeader]
      have hno : ∀ q ∈ ps, isSeqHdr q = false := by
        intro q hq
        cases hsq : isSeqHdr q with
        | false => rfl
        | true => have := ho.1 q hq hsq; rw [hfd] at this; cases this
      rw [concatBytes_false buffer isSeqHdr ps hno]
      simp [isKept, isSeqHdr, isFrameData, hty, HeaderType.isDropped,
        HeaderType.isSequenceHeader]

/-- C3, as stated, fails: for the parsed stream Frame [0,1),
SequenceHeader [1,2) the builder receives `mdat = [0xAA, 0xBB]` (stream
order) while `configOBUs` followed by the frame bytes is `[0xBB, 0xAA]`. -/
theorem mdat_config_then_frames_counterexample :
    assembleFrame [0xAA, 0xBB]
        [⟨HeaderType.Frame, 0, 1, none⟩,
          ⟨HeaderType.SequenceHeader, 1, 2, some sampleSequenceHeader⟩]
      = Except.ok { sequenceHeader := sampleSequenceHeader, configOBUs := [0xBB],
                    mdat := [0xAA, 0xBB] }
    ∧ ([0xAA, 0xBB] : List Byte)
      ≠ [0xBB] ++ concatBytes [0xAA, 0xBB] isFrameData
          [⟨HeaderType.Frame, 0, 1, none⟩,
            ⟨HeaderType.SequenceHeader, 1, 2, some sampleSequenceHeader⟩] := by
  constructor
  · rfl
  · decide

/-- C3, amended. For a parsed stream in which no frame-data record precedes
a sequence header record, the loop ends with
`mdat = configOBUs ++ (frame-data bytes in record order)`, and this is the
payload of every frame handed to the builder. -/
theorem mdat_config_then_frames (buffer : List Byte) (packets : List Packet)
    (hp : Parsed packets)
    (ho : packets.Pairwise (fun a b => isSeqHdr b = true → isFrameData a = false)) :
    (∃ st, classifyLoop buffer LoopState.init packets = Except.ok st
        ∧ st.mdat = st.configOBUs ++ concatBytes buffer isFrameData packets)
    ∧ ∀ frame, assembleFrame buffer packets = Except.ok frame →
        frame.mdat = frame.configOBUs ++ concatBytes buffer isFrameData packets := by
  have hloop := classifyLoop_ok buffer packets hp LoopState.init
  have hsplit := concatBytes_kept_split buffer packets ho
  constructor
  · exact ⟨_, hloop, by simp [LoopState.init, hsplit]⟩
  · intro frame hf
    unfold assembleFrame at hf
    rw [hloop] at hf
    simp only [LoopState.init, List.nil_append] at hf
    split at hf
    · cases hf
    · simp only [Except.ok.injEq] at hf
      subst hf
      exact hsplit

/-- C3 amended, at Scenario A's record order over a five-byte buffer. -/
theorem mdat_config_then_frames_witness :
    (∃ st, classifyLoop [1, 2, 3, 4, 5] LoopState.init
        [ ⟨HeaderType.TemporalDelimiter, 0, 1, none⟩
        , ⟨HeaderType.SequenceHeader, 1, 3, some sampleSequenceHeader⟩
        , ⟨HeaderType.Frame, 3, 5, none⟩ ] = Except.ok st
        ∧ st.mdat = st.configOBUs ++ concatBytes [1, 2, 3, 4, 5] isFrameData
            [ ⟨HeaderType.TemporalDelimiter, 0, 1, none⟩
            , ⟨HeaderType.SequenceHeader, 1, 3, some sampleSequenceHeader⟩
            , ⟨HeaderType.Frame, 3, 5, none⟩ ])
    ∧ ∀ frame, assembleFrame [1, 2, 3, 4, 5]
        [ ⟨HeaderType.TemporalDelimiter, 0, 1, none⟩
        , ⟨HeaderType.SequenceHeader, 1, 3, some sampleSequenceHeader⟩
        , ⟨HeaderType.Frame, 3, 5, none⟩ ] = Except.ok frame →
        frame.mdat = frame.configOBUs ++ concatBytes [1, 2, 3, 4, 5] isFrameData
            [ ⟨HeaderType.TemporalDelimiter, 0, 1, none⟩
            , ⟨HeaderType.SequenceHeader, 1, 3, some sampleSequenceHeader⟩
            , ⟨HeaderType.Frame, 3, 5, none⟩ ] :=
  mdat_config_then_frames [1, 2, 3, 4, 5] _ (by decide) (by decide)

theorem byteRange_length (buffer : List Byte) (b e : Nat) (h : e ≤ buffer.length) :
    (byteRange buffer b e).length = e - b := by
  simp [byteRange, Nat.min_eq_left h]

theorem concatBytes_length (buffer : List Byte) (keep : Packet → Bool) (packets : List Packet)
    (hr : ∀ p ∈ packets, p.beg ≤ p.end_ ∧ p.end_ ≤ buffer.length) :
    (concatBytes buffer keep packets).length
      = ((packets.filter keep).map (fun p => p.end_ - p.beg)).sum := by
  induction packets with
  | nil => rfl
  | cons p ps ih =>
    have hps : ∀ q ∈ ps, q.beg ≤ q.end_ ∧ q.end_ ≤ buffer.length :=
      fun q hq => hr q (List.mem_cons_of_mem p hq)
    have hp := hr p (List.mem_cons_self p ps)
    rw [concatBytes_cons, List.length_append, ih hps]
    by_cases hk : keep p = true
    · simp [hk, List.filter_cons, Packet.bytes, byteRange_length buffer p.beg p.end_ hp.2]
    · simp [hk, List.filter_cons]

/-- C4. For parsed records with `beg <= end <= buffer length` the loop ends
with `mdat` as long as the sum of `end - beg` over the records whose type is
not `TemporalDelimiter`, `Padding` or `Reserved`; for Scenario A's records
over any 514-byte buffer `mdat` has 512 bytes and `configOBUs` has 12. -/
theorem mdat_length :
    (∀ (buffer : List Byte) (packets : List Packet), Parsed packets →
      (∀ p ∈ packets, p.beg ≤ p.end_ ∧ p.end_ ≤ buffer.length) →
      ∃ st, classifyLoop buffer LoopState.init packets = Except.ok st
        ∧ st.mdat.length
          = ((packets.filter (fun p => decide (p.type ≠ HeaderType.TemporalDelimiter
              ∧ p.type ≠ HeaderType.Padding ∧ p.type ≠ HeaderType.Reserved))).map
                (fun p => p.end_ - p.beg)).sum)
    ∧ (∀ (buffer : List Byte) (hdr : SequenceHeader), buffer.length = 514 →
      ∃ st, classifyLoop buffer LoopState.init
          [ ⟨HeaderType.TemporalDelimiter, 0, 2, none⟩
          , ⟨HeaderType.SequenceHeader, 2, 14, some hdr⟩
          , ⟨HeaderType.Frame, 14, 514, none⟩ ] = Except.ok st
        ∧ st.mdat.length = 512 ∧ st.configOBUs.length = 12) := by
  have h2 : (fun p : Packet => decide (p.type ≠ HeaderType.TemporalDelimiter
      ∧ p.type ≠ HeaderType.Padding ∧ p.type ≠ HeaderType.Reserved)) = isKept := by
    funext p
    unfold isKept
    cases p.type <;> simp [HeaderType.isDropped]
  constructor
  · intro buffer packets hp hr
    refine ⟨_, classifyLoop_ok buffer packets hp LoopState.init, ?_⟩
    rw [h2]
    simp only [LoopState.init, List.nil_append]
    exact concatBytes_length buffer isKept packets hr
  · intro buffer hdr hlen
    have hp : Parsed [ (⟨HeaderType.TemporalDelimiter, 0, 2, none⟩ : Packet)
          , ⟨HeaderType.SequenceHeader, 2, 14, some hdr⟩
          , ⟨HeaderType.Frame, 14, 514, none⟩ ] := by
      intro p hp
      simp only [List.mem_cons, List.mem_singleton, List.not_mem_nil, or_false] at hp
      rcases hp with rfl | rfl | rfl <;> simp
    have hr : ∀ p ∈ [ (⟨HeaderType.TemporalDelimiter, 0, 2, none⟩ : Packet)
          , ⟨HeaderType.SequenceHeader, 2, 14, some hdr⟩
          , ⟨HeaderType.Frame, 14, 514, none⟩ ], p.beg ≤ p.end_ ∧ p.end_ ≤ buffer.length := by
      intro p hp
      simp only [List.mem_cons, List.mem_singleton, List.not_mem_nil, or_false] at hp
      rcases hp with rfl | rfl | rfl <;> simp [hlen]
    refine ⟨_, classifyLoop_ok buffer _ hp LoopState.init, ?_, ?_⟩
    · simp only [LoopState.init, List.nil_append]
      rw [concatBytes_length buffer isKept _ hr]
      simp [List.filter_cons, isKept, HeaderType.isDropped]
    · simp only [LoopState.init, List.nil_append]
      rw [concatBytes_length buffer isSeqHdr _ hr]
      simp [List.filter_cons, isSeqHdr, HeaderType.isSequenceHeader]

/-- C4 at a five-byte stream (sequence header, frame, padding) and at
Scenario A over a buffer of 514 zero bytes. -/
theorem mdat_length_witness :
    (∃ st, classifyLoop [1, 2, 3, 4, 5] LoopState.init
        [ ⟨HeaderType.SequenceHeader, 0, 2, some sampleSequenceHeader⟩
        , ⟨HeaderType.Frame, 2, 4, none⟩
        , ⟨HeaderType.Padding, 4, 5, none⟩ ] = Except.ok st
      ∧ st.mdat.length = 4)
    ∧ ∃ st, classifyLoop (List.replicate 514 0) LoopState.init
        [ ⟨HeaderType.TemporalDelimiter, 0, 2, none⟩
        , ⟨HeaderType.SequenceHeader, 2, 14, some sampleSequenceHeader⟩
        , ⟨HeaderType.Frame, 14, 514, none⟩ ] = Except.ok st
      ∧ st.mdat.length = 512 ∧ st.configOBUs.length = 12 :=
  ⟨mdat_length.1 [1, 2, 3, 4, 5]
      [ ⟨HeaderType.SequenceHeader, 0, 2, some sampleSequenceHeader⟩
      , ⟨HeaderType.Frame, 2, 4, none⟩
      , ⟨HeaderType.Padding, 4, 5, none⟩ ] (by decide) (by decide),
   mdat_length.2 (List.replicate 514 0) sampleSequenceHeader (List.length_replicate 514 0)⟩

/-- C9. For a parsed stream with at least one `SequenceHeader` record the
frame handed to the builder carries the decoded content of the last such
record in stream order, `configOBUs` holds the bytes of every such record
in stream order, and with exactly one such record `configOBUs` is that
record's byte range and the header is its content. -/
theorem last_sequence_header_wins (buffer : List Byte) (packets : List Packet)
    (hp : Parsed packets) (hs : ∃ p ∈ packets, p.type = HeaderType.SequenceHeader) :
    ∃ frame, assembleFrame buffer packets = Except.ok frame
      ∧ (∃ last, (packets.filter
            (fun p => decide (p.type = HeaderType.SequenceHeader))).getLast? = some last
          ∧ last.content = some frame.sequenceHeader)
      ∧ frame.configOBUs
          = ((packets.filter (fun p => decide (p.type = HeaderType.SequenceHeader))).map
              (fun p => byteRange buffer p.beg p.end_)).flatten
      ∧ ∀ only, packets.filter (fun p => decide (p.type = HeaderType.SequenceHeader)) = [only] →
          frame.configOBUs = byteRange buffer only.beg only.end_
          ∧ only.content = some frame.sequenceHeader := by
  have h1 : (fun p : Packet => decide (p.type = HeaderType.SequenceHeader)) = isSeqHdr := by
    funext p
    unfold isSeqHdr
    cases p.type <;> simp [HeaderType.isSequenceHeader]
  rw [h1]
  obtain ⟨s, hsome⟩ := lastSeqHdr_content packets hp hs
  have hloop := classifyLoop_ok buffer packets hp LoopState.init
  refine ⟨{ sequenceHeader := s, configOBUs := concatBytes buffer isSeqHdr packets,
            mdat := concatBytes buffer isKept packets }, ?_, ?_, rfl, ?_⟩
  · unfold assembleFrame
    rw [hloop, hsome]
    simp [LoopState.init]
  · cases hl : (packets.filter isSeqHdr).getLast? with
    | none => rw [hl] at hsome; simp at hsome
    | some q => rw [hl] at hsome; exact ⟨q, rfl, by simpa using hsome⟩
  · intro only honly
    rw [honly] at hsome
    constructor
    · simp [concatBytes, honly, Packet.bytes]
    · simpa using hsome

/-- C9 at a stream with two sequence header records: the second one's
content reaches the builder, both records' bytes are in `configOBUs`. -/
theorem last_sequence_header_wins_witness :
    ∃ frame, assembleFrame [1, 2, 3, 4]
        [ ⟨HeaderType.SequenceHeader, 0, 1,
            some { sampleSequenceHeader with seqProfile := 2 }⟩
        , ⟨HeaderType.Frame, 1, 3, none⟩
        , ⟨HeaderType.SequenceHeader, 3, 4, some sampleSequenceHeader⟩ ] = Except.ok frame
      ∧ frame.sequenceHeader = sampleSequenceHeader
      ∧ frame.configOBUs = [1, 4] := by
  obtain ⟨frame, hf, ⟨last, hl, hc⟩, hcfg, _⟩ :=
    last_sequence_header_wins [1, 2, 3, 4]
      [ ⟨HeaderType.SequenceHeader, 0, 1, some { sampleSequenceHeader with seqProfile := 2 }⟩
      , ⟨HeaderType.Frame, 1, 3, none⟩
      , ⟨HeaderType.SequenceHeader, 3, 4, some sampleSequenceHeader⟩ ]
      (by decide) ⟨_, List.mem_cons_self _ _, rfl⟩
  refine ⟨frame, hf, ?_, ?_⟩
  · have hl2 : last = ⟨HeaderType.SequenceHeader, 3, 4, some sampleSequenceHeader⟩ := by
      have : (some last : Option Packet)
          = some ⟨HeaderType.SequenceHeader, 3, 4, some sampleSequenceHeader⟩ := by
        rw [← hl]; rfl
      exact Option.some.inj this
    rw [hl2] at hc
    exact (Option.some.inj hc).symm
  · rw [hcfg]; rfl

/-! ## `endsWidh` -/

/-- C10. `endsWidh` returns normally for all strings (no `out_of_range` from
`substr`), returns `true` exactly when `suffix` is a suffix of `target`,
returns `true` for the empty suffix and `false` for a suffix longer than
the target. -/
theorem endsWidh_iff_suffix (target suffix : List Char) :
    (endsWidh target suffix = Except.ok true ↔ ∃ p, target = p ++ suffix)
    ∧ (∃ b, endsWidh target suffix = Except.ok b)
    ∧ endsWidh target [] = Except.ok true
    ∧ (target.length < suffix.length → endsWidh target suffix = Except.ok false) := by
  refine ⟨?_, ?_, ?_, ?_⟩
  · unfold endsWidh substr
    by_cases hlen : target.length < suffix.length
    · simp only [hlen, if_true, Except.ok.injEq, Bool.false_eq_true, false_iff]
      rintro ⟨p, hp⟩
      rw [hp, List.length_append] at hlen
      omega
    · have hsub : ¬ target.length < target.length - suffix.length := by omega
      simp only [hlen, hsub, if_false, Except.ok.injEq, decide_eq_true_eq]
      constructor
      · intro h
        have hsplit := List.take_append_drop (target.length - suffix.length) target
        rw [h] at hsplit
        exact ⟨target.take (target.length - suffix.length), hsplit.symm⟩
      · rintro ⟨p, hp⟩
        subst hp
        simp
  · unfold endsWidh substr
    by_cases hlen : target.length < suffix.length
    · exact ⟨false, by simp [hlen]⟩
    · have hsub : ¬ target.length < target.length - suffix.length := by omega
      exact ⟨decide (target.drop (target.length - suffix.length) = suffix),
        by simp only [hlen, hsub, if_false]⟩
  · simp [endsWidh, substr]
  · intro hlen
    simp [endsWidh, hlen]

/-- C10 at the file names `a.png` (accepted) and `png` (shorter than the
suffix `.png`, rejected). -/
theorem endsWidh_iff_suffix_witness :
    endsWidh ['a', '.', 'p', 'n', 'g'] ['.', 'p', 'n', 'g'] = Except.ok true
    ∧ endsWidh ['p', 'n', 'g'] ['.', 'p', 'n', 'g'] = Except.ok false :=
  ⟨(endsWidh_iff_suffix ['a', '.', 'p', 'n', 'g'] ['.', 'p', 'n', 'g']).1.mpr ⟨['a'], rfl⟩,
   (endsWidh_iff_suffix ['p', 'n', 'g'] ['.', 'p', 'n', 'g']).2.2.2 (by decide)⟩

/-! ## `printSequenceHeader` -/

/-- C8, the code at a 4:2:2 header (`subsamplingX = 1`, `subsamplingY = 0`):
the report ends normally, its line labelled "Sub sampling Y" shows 1, the
value of `subsamplingX`, and no line shows the value 0 of `subsamplingY`
under that label. -/
theorem printSequenceHeader_subsamplingY_line :
    sequenceHeader422.colorConfig.subsamplingX = 1
    ∧ sequenceHeader422.colorConfig.subsamplingY = 0
    ∧ ∃ lines, printSequenceHeader sequenceHeader422 = Except.ok lines
      ∧ lines[23]? = some "     - Sub sampling X: 1"
      ∧ lines[24]? = some "     - Sub sampling Y: 1"
      ∧ "     - Sub sampling Y: 0" ∉ lines := by
  refine ⟨rfl, rfl, _, rfl, ?_, ?_, ?_⟩
  · decide
  · decide
  · decide

/-! ## The offset patch loop -/

theorem take_drop_succ_append {α : Type} (l : List α) (x : α) (rest : List α) (i : Nat)
    (h : l.length = i) :
    (l ++ x :: rest).take (i + 1) = l ++ [x] ∧ (l ++ x :: rest).drop (i + 1) = rest := by
  subst h
  constructor
  · rw [List.take_append_eq_append_take]
    simp
  · rw [List.drop_append_eq_append_drop]
    simp

theorem FileBox.withItems_self (fileBox : FileBox) :
    fileBox.withItems fileBox.metaBox.itemLocationBox.items = fileBox := rfl

/-- The loop started at index `i` leaves the entries below `i` alone and
patches every entry from `i` on. -/
theorem patchLoop_from (n : Nat) : ∀ (fileBox : FileBox) (i : Nat),
    fileBox.metaBox.itemLocationBox.items.length - i = n →
    fileBox.metaBox.itemLocationBox.items.length ≤ fileBox.mediaDataBoxes.length →
    patchLoop fileBox i = Except.ok (fileBox.withItems
      (fileBox.metaBox.itemLocationBox.items.take i
        ++ List.zipWith patchItem (fileBox.metaBox.itemLocationBox.items.drop i)
            (fileBox.mediaDataBoxes.drop i))) := by
  induction n with
  | zero =>
    intro fileBox i hn _
    have hi : fileBox.metaBox.itemLocationBox.items.length ≤ i := by omega
    rw [patchLoop, if_neg (by omega), List.take_of_length_le hi, List.drop_of_length_le hi]
    simp [FileBox.withItems_self]
  | succ n ih =>
    intro fileBox i hn hlen
    have hi : i < fileBox.metaBox.itemLocationBox.items.length := by omega
    have hib : i < fileBox.mediaDataBoxes.length := by omega
    have hat : vectorAt fileBox.mediaDataBoxes i = Except.ok fileBox.mediaDataBoxes[i] := by
      simp [vectorAt, List.getElem?_eq_getElem hib]
    rw [patchLoop, if_pos hi, hat]
    simp only
    have hmod : (fileBox.setBaseOffset i fileBox.mediaDataBoxes[i].offset).metaBox.itemLocationBox.items
        = fileBox.metaBox.itemLocationBox.items.take i
          ++ patchItem fileBox.metaBox.itemLocationBox.items[i] fileBox.mediaDataBoxes[i]
            :: fileBox.metaBox.itemLocationBox.items.drop (i + 1) := by
      simp only [FileBox.setBaseOffset]
      rw [List.modify_eq_take_cons_drop hi]
      rfl
    have hlen2 : (fileBox.setBaseOffset i fileBox.mediaDataBoxes[i].offset).metaBox.itemLocationBox.items.length
        = fileBox.metaBox.itemLocationBox.items.length := by
      simp [FileBox.setBaseOffset]
    rw [ih (fileBox.setBaseOffset i fileBox.mediaDataBoxes[i].offset) (i + 1)
      (by rw [hlen2]; omega) (by rw [hlen2]; exact hlen)]
    have htd := take_drop_succ_append (fileBox.metaBox.itemLocationBox.items.take i)
      (patchItem fileBox.metaBox.itemLocationBox.items[i] fileBox.mediaDataBoxes[i])
      (fileBox.metaBox.itemLocationBox.items.drop (i + 1)) i
      (by rw [List.length_take]; omega)
    rw [hmod, htd.1, htd.2, List.drop_eq_getElem_cons hi, List.drop_eq_getElem_cons hib,
      List.zipWith_cons_cons]
    simp [FileBox.withItems, FileBox.setBaseOffset]

/-- The whole loop, in closed form. -/
theorem patchLoop_eq (fileBox : FileBox)
    (h : fileBox.metaBox.itemLocationBox.items.length ≤ fileBox.mediaDataBoxes.length) :
    patchLoop fileBox 0 = Except.ok (fileBox.withItems
      (List.zipWith patchItem fileBox.metaBox.itemLocationBox.items fileBox.mediaDataBoxes)) := by
  have := patchLoop_from _ fileBox 0 rfl h
  simpa using this

theorem zipWith_patchItem_getElem? (items : List Item) (boxes : List MediaDataBox) (i : Nat)
    (hi : i < items.length) (hb : i < boxes.length) :
    (List.zipWith patchItem items boxes)[i]? = some (patchItem items[i] boxes[i]) := by
  rw [List.getElem?_zipWith, List.getElem?_eq_getElem hi, List.getElem?_eq_getElem hb]

theorem zipWith_patchItem_length (items : List Item) (boxes : List MediaDataBox)
    (h : items.length ≤ boxes.length) :
    (List.zipWith patchItem items boxes).length = items.length := by
  rw [List.length_zipWith]
  omega

/-- C5. When there are at least as many media-data boxes as item-location
entries, the patch loop ends normally (no `at` goes out of range); after it
every entry `i` has `baseOffset` equal to the `offset` of media-data box
`i`; the number of entries, each entry's other fields, the media-data boxes
with their offsets and every other box are unchanged. -/
theorem patch_loop_syncs_offsets (fileBox : FileBox)
    (h : fileBox.metaBox.itemLocationBox.items.length ≤ fileBox.mediaDataBoxes.length) :
    ∃ patched, patchLoop fileBox 0 = Except.ok patched
      ∧ (∀ i, i < fileBox.metaBox.itemLocationBox.items.length →
          ∃ item box, patched.metaBox.itemLocationBox.items[i]? = some item
            ∧ fileBox.mediaDataBoxes[i]? = some box
            ∧ item.baseOffset = box.offset)
      ∧ patched.metaBox.itemLocationBox.items.length
          = fileBox.metaBox.itemLocationBox.items.length
      ∧ (∀ (i : Nat) (item : Item), patched.metaBox.itemLocationBox.items[i]? = some item →
          ∃ old, fileBox.metaBox.itemLocationBox.items[i]? = some old
            ∧ item.itemID = old.itemID ∧ item.length = old.length)
      ∧ patched.mediaDataBoxes = fileBox.mediaDataBoxes
      ∧ patched.fileTypeBox = fileBox.fileTypeBox
      ∧ patched.metaBox.handlerBox = fileBox.metaBox.handlerBox
      ∧ patched.metaBox.primaryItemBox = fileBox.metaBox.primaryItemBox
      ∧ patched.metaBox.itemInfoBox = fileBox.metaBox.itemInfoBox
      ∧ patched.metaBox.itemPropertiesBox = fileBox.metaBox.itemPropertiesBox := by
  refine ⟨_, patchLoop_eq fileBox h, ?_, ?_, ?_, rfl, rfl, rfl, rfl, rfl, rfl⟩
  · intro i hi
    have hb : i < fileBox.mediaDataBoxes.length := by omega
    exact ⟨_, _, zipWith_patchItem_getElem? _ _ i hi hb, List.getElem?_eq_getElem hb, rfl⟩
  · exact zipWith_patchItem_length _ _ h
  · intro i item hitem
    simp only [FileBox.withItems] at hitem
    have hlt : i < (List.zipWith patchItem fileBox.metaBox.itemLocationBox.items
        fileBox.mediaDataBoxes).length := (List.getElem?_eq_some_iff.mp hitem).1
    rw [zipWith_patchItem_length _ _ h] at hlt
    have hb : i < fileBox.mediaDataBoxes.length := by omega
    rw [zipWith_patchItem_getElem? _ _ i hlt hb] at hitem
    refine ⟨_, List.getElem?_eq_getElem hlt, ?_, ?_⟩
    · rw [← Option.some.inj hitem]; rfl
    · rw [← Option.some.inj hitem]; rfl

/-- C5 at a tree with one entry (placeholder `baseOffset` 0) and one
media-data box whose recorded `offset` is 312. -/
theorem patch_loop_syncs_offsets_witness :
    ∃ patched, patchLoop sampleFileBox 0 = Except.ok patched
      ∧ (∃ item, patched.metaBox.itemLocationBox.items[0]? = some item
          ∧ item.baseOffset = 312 ∧ item.itemID = 1 ∧ item.length = 4)
      ∧ patched.metaBox.itemLocationBox.items.length = 1
      ∧ patched.mediaDataBoxes = [⟨312, [7, 7, 7, 7]⟩] := by
  obtain ⟨patched, hrun, hsync, hlen, hkeep, hboxes, _⟩ :=
    patch_loop_syncs_offsets sampleFileBox (by decide)
  refine ⟨patched, hrun, ?_, hlen, hboxes⟩
  obtain ⟨item, box, hitem, hbox, hoff⟩ := hsync 0 (by decide)
  obtain ⟨old, hold, hid, hl⟩ := hkeep 0 item hitem
  have hbox2 : box = ⟨312, [7, 7, 7, 7]⟩ := (Option.some.inj hbox).symm
  have hold2 : old = ⟨1, 0, 4⟩ := (Option.some.inj hold).symm
  subst hbox2 hold2
  exact ⟨item, hitem, hoff, hid, hl⟩

/-! ## The payload overlay -/

theorem stdCopy_length (src dst : List Byte) (pos : Nat) :
    (stdCopy src dst pos).length = dst.length := by
  induction src generalizing dst pos with
  | nil => rfl
  | cons b rest ih => rw [stdCopy, ih, List.length_set]

theorem stdCopy_getElem?_outside (src dst : List Byte) (pos j : Nat)
    (h : j < pos ∨ pos + src.length ≤ j) :
    (stdCopy src dst pos)[j]? = dst[j]? := by
  induction src generalizing dst pos with
  | nil => rfl
  | cons b rest ih =>
    rw [stdCopy, ih, List.getElem?_set]
    · have hne : pos ≠ j := by
        simp only [List.length_cons] at h
        omega
      rw [if_neg hne]
    · simp only [List.length_cons] at h
      omega

theorem stdCopy_getElem?_inside (src dst : List Byte) (pos k : Nat)
    (hfit : pos + src.length ≤ dst.length) (hk : k < src.length) :
    (stdCopy src dst pos)[pos + k]? = some src[k] := by
  induction src generalizing dst pos k with
  | nil => simp at hk
  | cons b rest ih =>
    simp only [List.length_cons] at hfit hk
    rw [stdCopy]
    cases k with
    | zero =>
      rw [stdCopy_getElem?_outside _ _ _ _ (Or.inl (by omega)), List.getElem?_set]
      simp only [Nat.add_zero, if_true, List.getElem_cons_zero]
      rw [if_pos (by omega)]
    | succ k =>
      have := ih (dst.set pos b) (pos + 1) k (by rw [List.length_set]; omega) (by omega)
      rw [show pos + (k + 1) = pos + 1 + k by omega, this]
      rfl

/-! ## The box writer: sizes do not depend on the patched values -/

theorem beBytes_length (width v : Nat) : (beBytes width v).length = width := by
  induction width generalizing v with
  | zero => rfl
  | succ n ih => simp [beBytes, ih]

theorem boxHeader_length (type : List Byte) (n : Nat) :
    (boxHeader type n).length = 4 + type.length := by
  simp [boxHeader, beBytes_length]

theorem writeItem_length (width : Nat) (item : Item) :
    (writeItem width item).length = 2 + width + 4 := by
  simp [writeItem, beBytes_length]
  omega

theorem writeItems_cons (width : Nat) (item : Item) (items : List Item) :
    writeItems width (item :: items) = writeItem width item ++ writeItems width items := by
  simp [writeItems]

theorem writeItems_length (width : Nat) (items : List Item) :
    (writeItems width items).length = items.length * (2 + width + 4) := by
  induction items with
  | nil => simp [writeItems]
  | cons item rest ih =>
    rw [writeItems_cons, List.length_append, ih, writeItem_length, List.length_cons,
      Nat.succ_mul]
    omega

theorem writeItems_patched_length (width : Nat) (items : List Item) (boxes : List MediaDataBox)
    (h : items.length ≤ boxes.length) :
    (writeItems width (List.zipWith patchItem items boxes)).length
      = (writeItems width items).length := by
  rw [writeItems_length, writeItems_length, zipWith_patchItem_length items boxes h]

/-- The media-data boxes are laid out from their buffers alone: the
`offset` values they hold on entry are not read. -/
theorem writeMediaDataBoxes_congr (pos : Nat) (boxes boxes2 : List MediaDataBox)
    (h : boxes.map MediaDataBox.data = boxes2.map MediaDataBox.data) :
    writeMediaDataBoxes pos boxes = writeMediaDataBoxes pos boxes2 := by
  induction boxes generalizing boxes2 pos with
  | nil =>
    cases boxes2 with
    | nil => rfl
    | cons b bs => simp at h
  | cons a as ih =>
    cases boxes2 with
    | nil => simp at h
    | cons b bs =>
      simp only [List.map_cons, List.cons.injEq] at h
      simp only [writeMediaDataBoxes, h.1]
      rw [ih _ bs h.2]

theorem writeMediaDataBoxes_data (pos : Nat) (boxes : List MediaDataBox) :
    (writeMediaDataBoxes pos boxes).2.map MediaDataBox.data = boxes.map MediaDataBox.data := by
  induction boxes generalizing pos with
  | nil => rfl
  | cons a as ih => simp [writeMediaDataBoxes, ih]

theorem writeMediaDataBoxes_length (pos : Nat) (boxes : List MediaDataBox) :
    (writeMediaDataBoxes pos boxes).2.length = boxes.length := by
  have := congrArg List.length (writeMediaDataBoxes_data pos boxes)
  simpa using this

/-- The bytes of the output that precede the item-location entries. -/
theorem writeMetaBox_split (width : Nat) (box : MetaBox) :
    writeMetaBox width box
      = (boxHeader metaType
            ((metaLead box).length + (writeItemLocationBox width box.itemLocationBox).length
              + (writeBox box.itemPropertiesBox).length)
          ++ metaLead box
          ++ boxHeader ilocType (2 + (writeItems width box.itemLocationBox.items).length)
          ++ beBytes 2 box.itemLocationBox.items.length)
        ++ (writeItems width box.itemLocationBox.items ++ writeBox box.itemPropertiesBox) := by
  simp [writeMetaBox, writeItemLocationBox, List.append_assoc]

theorem write_split (width : Nat) (fileBox : FileBox) :
    (Writer.write width fileBox).1
      = writeLead width fileBox
        ++ (writeItems width fileBox.metaBox.itemLocationBox.items
          ++ writeTrail width fileBox) := by
  simp [Writer.write, writeLead, writeTrail, writeMetaBox_split, List.append_assoc]

theorem baseOffsetPos_eq (width : Nat) (fileBox : FileBox) (i : Nat) :
    baseOffsetPos width fileBox i
      = (writeLead width fileBox).length + (i * (2 + width + 4) + 2) := by
  simp only [baseOffsetPos, writeLead, List.length_append, boxHeader_length, beBytes_length]
  omega

theorem writeMetaBox_length (width : Nat) (box : MetaBox) :
    (writeMetaBox width box).length
      = 4 + metaType.length + (metaLead box).length + (4 + ilocType.length) + 2
        + box.itemLocationBox.items.length * (2 + width + 4)
        + (writeBox box.itemPropertiesBox).length := by
  simp only [writeMetaBox, writeItemLocationBox, List.length_append, boxHeader_length,
    beBytes_length, writeItems_length]
  omega

/-- Two trees that differ only in `baseOffset` values and in the `offset`
values held by the media-data boxes are laid out alike. -/
theorem write_same_layout (width : Nat) (fileBox : FileBox) (items : List Item)
    (boxes : List MediaDataBox)
    (hitems : items.length = fileBox.metaBox.itemLocationBox.items.length)
    (hboxes : boxes.map MediaDataBox.data = fileBox.mediaDataBoxes.map MediaDataBox.data) :
    writeLead width ({ fileBox with mediaDataBoxes := boxes }.withItems items)
        = writeLead width fileBox
    ∧ writeTrail width ({ fileBox with mediaDataBoxes := boxes }.withItems items)
        = writeTrail width fileBox
    ∧ (Writer.write width ({ fileBox with mediaDataBoxes := boxes }.withItems items)).2.mediaDataBoxes
        = (Writer.write width fileBox).2.mediaDataBoxes := by
  have hmeta : (writeMetaBox width
        ({ fileBox with mediaDataBoxes := boxes }.withItems items).metaBox).length
      = (writeMetaBox width fileBox.metaBox).length := by
    rw [writeMetaBox_length, writeMetaBox_length]
    simp [FileBox.withItems, metaLead, hitems]
  refine ⟨?_, ?_, ?_⟩
  · simp only [writeLead, FileBox.withItems, metaLead, writeItemLocationBox, List.length_append,
      boxHeader_length, beBytes_length, writeItems_length, hitems]
  · simp only [writeTrail, List.length_append, hmeta]
    simp only [FileBox.withItems]
    rw [writeMediaDataBoxes_congr _ boxes fileBox.mediaDataBoxes hboxes]
  · simp only [Writer.write, List.length_append, hmeta]
    simp only [FileBox.withItems]
    rw [writeMediaDataBoxes_congr _ boxes fileBox.mediaDataBoxes hboxes]

/-- One serialized entry changes only inside its `baseOffset` field. -/
theorem writeItem_patched_getElem? (width : Nat) (item : Item) (box : MediaDataBox) (j : Nat)
    (hj : j < 2 ∨ 2 + width ≤ j) :
    (writeItem width (patchItem item box))[j]? = (writeItem width item)[j]? := by
  simp only [writeItem, patchItem]
  rcases hj with hj | hj
  · rw [List.getElem?_append_left (by rw [beBytes_length]; exact hj),
      List.getElem?_append_left (by rw [beBytes_length]; exact hj)]
  · rw [List.getElem?_append_right (by simp only [beBytes_length]; omega),
      List.getElem?_append_right (by simp only [beBytes_length]; omega),
      List.getElem?_append_right (by simp only [beBytes_length]; omega),
      List.getElem?_append_right (by simp only [beBytes_length]; omega)]
    simp only [beBytes_length]

/-- The serialized entries change only inside the `baseOffset` fields. -/
theorem writeItems_patched_getElem? (width : Nat) (items : List Item)
    (boxes : List MediaDataBox) (h : items.length ≤ boxes.length) (j : Nat)
    (hj : ∀ i, i < items.length →
      j < i * (2 + width + 4) + 2 ∨ i * (2 + width + 4) + 2 + width ≤ j) :
    (writeItems width (List.zipWith patchItem items boxes))[j]? = (writeItems width items)[j]? := by
  induction items generalizing boxes j with
  | nil => simp
  | cons item rest ih =>
    cases boxes with
    | nil => simp at h
    | cons box others =>
      simp only [List.length_cons] at h hj
      rw [List.zipWith_cons_cons, writeItems_cons, writeItems_cons]
      by_cases hlt : j < 2 + width + 4
      · rw [List.getElem?_append_left (by rw [writeItem_length]; exact hlt),
          List.getElem?_append_left (by rw [writeItem_length]; exact hlt)]
        apply writeItem_patched_getElem?
        have := hj 0 (by omega)
        omega
      · rw [List.getElem?_append_right (by rw [writeItem_length]; omega),
          List.getElem?_append_right (by rw [writeItem_length]; omega),
          writeItem_length, writeItem_length]
        apply ih others (by omega)
        intro i hi
        have := hj (i + 1) (by omega)
        rw [Nat.succ_mul] at this
        generalize i * (2 + width + 4) = t at this ⊢
        omega

/-- Inside the serialized entries, entry `i` keeps its `baseOffset` in the
`width` bytes that follow its two-byte item id. -/
theorem writeItems_baseOffset_field (width : Nat) (items : List Item) (i : Nat) (item : Item)
    (h : items[i]? = some item) :
    ((writeItems width items).drop (i * (2 + width + 4) + 2)).take width
        = beBytes width item.baseOffset
      ∧ i * (2 + width + 4) + 2 + width ≤ (writeItems width items).length := by
  induction items generalizing i with
  | nil => simp at h
  | cons first rest ih =>
    rw [writeItems_cons]
    cases i with
    | zero =>
      simp only [List.getElem?_cons_zero, Option.some.injEq] at h
      subst h
      constructor
      · simp only [Nat.zero_mul, Nat.zero_add, writeItem, List.append_assoc]
        rw [List.drop_append_eq_append_drop, beBytes_length]
        rw [List.drop_of_length_le (by rw [beBytes_length]), Nat.sub_self]
        simp only [List.nil_append, List.drop_zero]
        rw [List.take_append_eq_append_take, beBytes_length, Nat.sub_self]
        rw [List.take_of_length_le (by rw [beBytes_length])]
        simp
      · rw [List.length_append, writeItem_length]
        omega
    | succ i =>
      simp only [List.getElem?_cons_succ] at h
      obtain ⟨h1, h2⟩ := ih i h
      constructor
      · rw [List.drop_append_eq_append_drop, writeItem_length]
        rw [List.drop_of_length_le (by rw [writeItem_length, Nat.succ_mul]; omega)]
        rw [show (i + 1) * (2 + width + 4) + 2 - (2 + width + 4) = i * (2 + width + 4) + 2 by
          rw [Nat.succ_mul]; omega]
        simpa using h1
      · rw [List.length_append, writeItem_length, Nat.succ_mul]
        omega

/-! ## The two writer passes -/

/-- Two buffers with the same lead and trail and equally long middles
agree wherever the middles agree. -/
theorem getElem?_lead_mid_trail {α : Type} (lead a b trail : List α) (j : Nat)
    (hab : a.length = b.length)
    (hmid : j - lead.length < b.length → a[j - lead.length]? = b[j - lead.length]?) :
    (lead ++ (a ++ trail))[j]? = (lead ++ (b ++ trail))[j]? := by
  simp only [List.getElem?_append, hab]
  by_cases h1 : j < lead.length
  · simp only [h1, if_true]
  · simp only [h1, if_false]
    by_cases h2 : j - lead.length < b.length
    · simp only [h2, if_true]
      exact hmid h2
    · simp only [h2, if_false]

/-- The tree that the patch loop yields after the discovery pass. -/
theorem patchLoop_after_discovery (width : Nat) (fileBox : FileBox)
    (h : fileBox.metaBox.itemLocationBox.items.length ≤ fileBox.mediaDataBoxes.length) :
    patchLoop (Writer.write width fileBox).2 0
      = Except.ok ({ fileBox with
            mediaDataBoxes := (Writer.write width fileBox).2.mediaDataBoxes }.withItems
          (List.zipWith patchItem fileBox.metaBox.itemLocationBox.items
            (Writer.write width fileBox).2.mediaDataBoxes)) := by
  have hlen : (Writer.write width fileBox).2.mediaDataBoxes.length
      = fileBox.mediaDataBoxes.length := by
    simp only [Writer.write]
    exact writeMediaDataBoxes_length _ _
  have := patchLoop_eq (Writer.write width fileBox).2 (by
    rw [hlen]
    exact h)
  rw [this]
  rfl

/-- The final pass over the patched tree, split around the item-location
entries, and the offsets it records. -/
theorem final_pass_layout (width : Nat) (fileBox : FileBox)
    (h : fileBox.metaBox.itemLocationBox.items.length ≤ fileBox.mediaDataBoxes.length) :
    (Writer.write width ({ fileBox with
            mediaDataBoxes := (Writer.write width fileBox).2.mediaDataBoxes }.withItems
          (List.zipWith patchItem fileBox.metaBox.itemLocationBox.items
            (Writer.write width fileBox).2.mediaDataBoxes))).1
        = writeLead width fileBox
          ++ (writeItems width (List.zipWith patchItem fileBox.metaBox.itemLocationBox.items
                (Writer.write width fileBox).2.mediaDataBoxes)
            ++ writeTrail width fileBox)
    ∧ (Writer.write width ({ fileBox with
            mediaDataBoxes := (Writer.write width fileBox).2.mediaDataBoxes }.withItems
          (List.zipWith patchItem fileBox.metaBox.itemLocationBox.items
            (Writer.write width fileBox).2.mediaDataBoxes))).2.mediaDataBoxes
        = (Writer.write width fileBox).2.mediaDataBoxes := by
  have hlen : (Writer.write width fileBox).2.mediaDataBoxes.length
      = fileBox.mediaDataBoxes.length := by
    simp only [Writer.write]
    exact writeMediaDataBoxes_length _ _
  have hdata : (Writer.write width fileBox).2.mediaDataBoxes.map MediaDataBox.data
      = fileBox.mediaDataBoxes.map MediaDataBox.data := by
    simp only [Writer.write]
    exact writeMediaDataBoxes_data _ _
  obtain ⟨h1, h2, h3⟩ := write_same_layout width fileBox
    (List.zipWith patchItem fileBox.metaBox.itemLocationBox.items
      (Writer.write width fileBox).2.mediaDataBoxes)
    (Writer.write width fileBox).2.mediaDataBoxes
    (zipWith_patchItem_length _ _ (by rw [hlen]; exact h)) hdata
  refine ⟨?_, h3⟩
  rw [write_split, h1, h2]
  rfl

/-- C7. Two-pass offset stability, against the writer modelled from the
spec: after the discovery pass and the patch loop of `_main`, the final
pass yields a buffer as long as the discovery pass's, equal to it at every
position outside the `baseOffset` fields of the item-location entries, and
records the same media-data offsets; each `baseOffset` field holds the
patched value in the final buffer. -/
theorem two_pass_offset_stability (width : Nat) (fileBox : FileBox)
    (h : fileBox.metaBox.itemLocationBox.items.length ≤ fileBox.mediaDataBoxes.length) :
    ∃ patched, patchLoop (Writer.write width fileBox).2 0 = Except.ok patched
      ∧ (Writer.write width patched).1.length = (Writer.write width fileBox).1.length
      ∧ (∀ j, (∀ i, i < fileBox.metaBox.itemLocationBox.items.length →
            j < baseOffsetPos width fileBox i ∨ baseOffsetPos width fileBox i + width ≤ j) →
          (Writer.write width patched).1[j]? = (Writer.write width fileBox).1[j]?)
      ∧ (Writer.write width patched).2.mediaDataBoxes.map MediaDataBox.offset
          = (Writer.write width fileBox).2.mediaDataBoxes.map MediaDataBox.offset
      ∧ (∀ (i : Nat) (item : Item), patched.metaBox.itemLocationBox.items[i]? = some item →
          ((Writer.write width patched).1.drop (baseOffsetPos width fileBox i)).take width
            = beBytes width item.baseOffset) := by
  have hlen : (Writer.write width fileBox).2.mediaDataBoxes.length
      = fileBox.mediaDataBoxes.length := by
    simp only [Writer.write]
    exact writeMediaDataBoxes_length _ _
  have hle : fileBox.metaBox.itemLocationBox.items.length
      ≤ (Writer.write width fileBox).2.mediaDataBoxes.length := by
    rw [hlen]
    exact h
  obtain ⟨hout, hboxes⟩ := final_pass_layout width fileBox h
  refine ⟨_, patchLoop_after_discovery width fileBox h, ?_, ?_, ?_, ?_⟩
  · rw [hout, write_split]
    simp only [List.length_append, writeItems_patched_length width _ _ hle]
  · intro j hj
    rw [hout, write_split]
    apply getElem?_lead_mid_trail _ _ _ _ j (writeItems_patched_length width _ _ hle)
    intro hmid
    apply writeItems_patched_getElem? width _ _ hle
    intro i hi
    have := hj i hi
    rw [baseOffsetPos_eq] at this
    rw [writeItems_length] at hmid
    generalize i * (2 + width + 4) = t at this ⊢
    omega
  · rw [hboxes]
  · intro i item hitem
    obtain ⟨hfield, hfit⟩ := writeItems_baseOffset_field width _ i item hitem
    rw [hout, baseOffsetPos_eq, List.drop_append_eq_append_drop,
      List.drop_of_length_le (by omega), List.nil_append, Nat.add_sub_cancel_left,
      List.drop_append_eq_append_drop, List.take_append_eq_append_take]
    rw [show width - (List.drop (i * (2 + width + 4) + 2)
        (writeItems width (List.zipWith patchItem fileBox.metaBox.itemLocationBox.items
          (Writer.write width fileBox).2.mediaDataBoxes))).length = 0 by
      rw [List.length_drop]
      simp only [FileBox.withItems] at hfit
      omega]
    simp only [List.take_zero, List.append_nil]
    exact hfield

/-- C7 at the sample tree with four-byte offsets: both passes give 89
bytes and record the media-data payload at position 85. -/
theorem two_pass_offset_stability_witness :
    ∃ patched, patchLoop (Writer.write 4 sampleFileBox).2 0 = Except.ok patched
      ∧ (Writer.write 4 patched).1.length = 89
      ∧ (Writer.write 4 patched).2.mediaDataBoxes.map MediaDataBox.offset = [85] := by
  obtain ⟨patched, hrun, hlen, _, hoff, _⟩ :=
    two_pass_offset_stability 4 sampleFileBox (by decide)
  refine ⟨patched, hrun, ?_, ?_⟩
  · rw [hlen]
    decide
  · rw [hoff]
    decide

/-- C6. The overlay `std::copy(mdat, data + o)` with
`o + len(mdat) <= len(out)` keeps the length of `out`, puts `mdat[k]` at
`o + k` and leaves every position outside `[o, o + len(mdat))` as it was;
and in `_main`, with the writer modelled from the spec, a tree with at
least one item-location entry and enough media-data boxes is written with
`o`, the offset of media-data box 0 after the final pass, equal to the
`baseOffset` patched into item-location entry 0. -/
theorem overlay_at_patched_offset :
    (∀ (out mdat : List Byte) (o : Nat), o + mdat.length ≤ out.length →
      (stdCopy mdat out o).length = out.length
      ∧ (∀ k (hk : k < mdat.length), (stdCopy mdat out o)[o + k]? = some mdat[k])
      ∧ (∀ j, j < o ∨ o + mdat.length ≤ j → (stdCopy mdat out o)[j]? = out[j]?))
    ∧ (∀ (width : Nat) (fileBox : FileBox) (mdat : List Byte),
      0 < fileBox.metaBox.itemLocationBox.items.length →
      fileBox.metaBox.itemLocationBox.items.length ≤ fileBox.mediaDataBoxes.length →
      ∃ patched box item,
        patchLoop (Writer.write width fileBox).2 0 = Except.ok patched
        ∧ (Writer.write width patched).2.mediaDataBoxes[0]? = some box
        ∧ patched.metaBox.itemLocationBox.items[0]? = some item
        ∧ item.baseOffset = box.offset
        ∧ writeOutput (Writer.write width) fileBox mdat
            = Except.ok (stdCopy mdat (Writer.write width patched).1 box.offset,
                (Writer.write width patched).2)) := by
  constructor
  · intro out mdat o hfit
    exact ⟨stdCopy_length mdat out o,
      fun k hk => stdCopy_getElem?_inside mdat out o k hfit hk,
      fun j hj => stdCopy_getElem?_outside mdat out o j hj⟩
  · intro width fileBox mdat hpos hle
    have hlen : (Writer.write width fileBox).2.mediaDataBoxes.length
        = fileBox.mediaDataBoxes.length := by
      simp only [Writer.write]
      exact writeMediaDataBoxes_length _ _
    have hb : 0 < (Writer.write width fileBox).2.mediaDataBoxes.length := by omega
    have hrun := patchLoop_after_discovery width fileBox hle
    obtain ⟨_, hboxes⟩ := final_pass_layout width fileBox hle
    refine ⟨_, (Writer.write width fileBox).2.mediaDataBoxes[0],
      patchItem fileBox.metaBox.itemLocationBox.items[0]
        (Writer.write width fileBox).2.mediaDataBoxes[0], hrun, ?_, ?_, rfl, ?_⟩
    · rw [hboxes]
      exact List.getElem?_eq_getElem hb
    · exact zipWith_patchItem_getElem? _ _ 0 hpos hb
    · unfold writeOutput
      rw [hrun]
      simp only [hboxes, vectorAt, List.get?_eq_getElem?, List.getElem?_eq_getElem hb]

/-- C6 at the sample tree with four-byte offsets and a four-byte payload:
the overlay lands on the placeholder region at position 85, which is the
`baseOffset` patched into entry 0. -/
theorem overlay_at_patched_offset_witness :
    ((stdCopy [1, 2, 3] [0, 0, 0, 0, 0, 0] 2).length = 6
      ∧ (∀ k (hk : k < [1, 2, 3].length),
          (stdCopy [1, 2, 3] [0, 0, 0, 0, 0, 0] 2)[2 + k]? = some ([1, 2, 3] : List Byte)[k])
      ∧ (∀ j, j < 2 ∨ 2 + [1, 2, 3].length ≤ j →
          (stdCopy [1, 2, 3] [0, 0, 0, 0, 0, 0] 2)[j]? = [0, 0, 0, 0, 0, 0][j]?))
    ∧ ∃ patched box item,
        patchLoop (Writer.write 4 sampleFileBox).2 0 = Except.ok patched
        ∧ (Writer.write 4 patched).2.mediaDataBoxes[0]? = some box
        ∧ patched.metaBox.itemLocationBox.items[0]? = some item
        ∧ item.baseOffset = box.offset
        ∧ writeOutput (Writer.write 4) sampleFileBox [7, 7, 7, 7]
            = Except.ok (stdCopy [7, 7, 7, 7] (Writer.write 4 patched).1 box.offset,
                (Writer.write 4 patched).2) :=
  ⟨overlay_at_patched_offset.1 [0, 0, 0, 0, 0, 0] [1, 2, 3] 2 (by decide),
   overlay_at_patched_offset.2 4 sampleFileBox [7, 7, 7, 7] (by decide) (by decide)⟩

end Cavif
